import Mathlib

/-!
Verification development for the PII masking repository's detection core
(`src/utils/pii-detector.ts`, `src/utils/pii-patterns.ts`, `src/types/index.ts`).

Modelling conventions:
* JS strings are modelled as `List Char` (all inputs of interest are BMP text,
  where UTF-16 code units and Unicode scalars coincide); `String` literals are
  converted with `.data`.
* `new RegExp(p, 'g')` / `String.prototype.matchAll` are modelled by a small
  JS-semantics regular-expression engine: a parser from the pattern-source
  string to an AST (compilation failure = `none`, modelling the thrown
  `SyntaxError`), and a backtracking matcher that enumerates candidate match
  end positions in JS preference order (leftmost position, left alternative
  first, greedy quantifiers longest-first), so the head of the enumeration is
  exactly the match JS produces.
* Thrown exceptions are modelled with `Except String`; DOM element references
  are modelled by numeric identifiers (`===` on elements becomes `Nat`
  equality), and the DOM-derived context (tag name, form context, nearby
  text) is carried as data on the text node, since its computation is
  external to the detection core.
* `Array.prototype.sort` (ES2019: stable; implementation-defined order for an
  inconsistent comparator, as the detector's comparator is) is modelled as a
  stable top-down merge sort over contiguous halves.
-/

/-- JS whitespace (the characters relevant to `\s`, `trim` and the source's
`replace(/[-\s]/g, '')`): space, tab, LF, VT, FF, CR, NBSP, ideographic space
and the other usual members of the class. -/
def isJsSpace (c : Char) : Bool :=
  c = ' ' || c = '\t' || c = '\n' || c = '\u000B' || c = '\u000C' || c = '\r' ||
  c = '\u00A0' || c = '\u1680' ||
  ('\u2000' ≤ c && c ≤ '\u200A') ||
  c = '\u2028' || c = '\u2029' || c = '\u202F' || c = '\u205F' ||
  c = '\u3000' || c = '\uFEFF'

/-- JS `\w` word character: `[A-Za-z0-9_]`. -/
def isWordChar (c : Char) : Bool :=
  ('a' ≤ c && c ≤ 'z') || ('A' ≤ c && c ≤ 'Z') || ('0' ≤ c && c ≤ '9') || c = '_'

/-- ASCII decimal digit, JS `\d`. -/
def isJsDigit (c : Char) : Bool :=
  '0' ≤ c && c ≤ '9'

/-- JS line terminators, which `.` does not match. -/
def isLineTerm (c : Char) : Bool :=
  c = '\n' || c = '\r' || c = '\u2028' || c = '\u2029'

/-- ASCII lower-casing of a character, as `String.prototype.toLowerCase`
acts on the characters appearing in this development. -/
def asciiLower (c : Char) : Char :=
  if 'A' ≤ c && c ≤ 'Z' then Char.ofNat (c.toNat + 32) else c

/-- ASCII lower-casing of a string. -/
def lowerStr (s : List Char) : List Char :=
  s.map asciiLower

/-- One member of a regular-expression character class. -/
inductive ClsIt where
  | one (c : Char)
  | range (lo hi : Char)
  | dCls
  | sCls
  | wCls
  deriving Repr, DecidableEq

/-- Abstract syntax of the JS regular-expression subset used by the
repository's pattern strings. -/
inductive Rx where
  | eps
  | ch (c : Char)
  | cls (neg : Bool) (items : List ClsIt)
  | dot
  | caret
  | dollar
  | wb
  | seq (a b : Rx)
  | alt (a b : Rx)
  | star (lzy : Bool) (a : Rx)
  | bnd (lo hi : Nat) (lzy : Bool) (a : Rx)
  | look (a : Rx)
  deriving Repr, DecidableEq

/-- Does one class item match a character. -/
def clsItMatch (c : Char) : ClsIt → Bool
  | .one c' => c = c'
  | .range lo hi => lo ≤ c && c ≤ hi
  | .dCls => isJsDigit c
  | .sCls => isJsSpace c
  | .wCls => isWordChar c

/-- Does a character class (possibly negated) match a character. -/
def clsMatch (neg : Bool) (items : List ClsIt) (c : Char) : Bool :=
  let m := items.any (clsItMatch c)
  if neg then !m else m

/-- Is position `i` of `s` occupied by a word character. -/
def wordAt (s : List Char) (i : Nat) : Bool :=
  match s.get? i with
  | some c => isWordChar c
  | none => false

/-- JS `\b`: true when exactly one side of position `p` is a word
character. -/
def wordBoundary (s : List Char) (p : Nat) : Bool :=
  let prevW := if p = 0 then false else wordAt s (p - 1)
  prevW != wordAt s p

/-- All continuations of a starred body in JS preference order: `f` gives the
end positions of one body iteration, zero-progress iterations are cut (as JS
terminates a quantifier loop on an empty body match), the empty repetition is
preferred last for greedy and first for lazy. -/
def starMats (f : Nat → List Nat) (lzy : Bool) : Nat → Nat → List Nat
  | 0, pos => [pos]
  | fuel + 1, pos =>
    let deeper := ((f pos).filter (fun p => p ≠ pos)).flatMap
      (fun p => starMats f lzy fuel p)
    if lzy then pos :: deeper else deeper ++ [pos]

/-- End positions after exactly `n` body iterations. -/
def exactMats (f : Nat → List Nat) : Nat → Nat → List Nat
  | 0, pos => [pos]
  | n + 1, pos => (f pos).flatMap (exactMats f n)

/-- End positions after at most `n` body iterations, in preference order. -/
def upToMats (f : Nat → List Nat) (lzy : Bool) : Nat → Nat → List Nat
  | 0, pos => [pos]
  | n + 1, pos =>
    let deeper := ((f pos).filter (fun p => p ≠ pos)).flatMap
      (fun p => upToMats f lzy n p)
    if lzy then pos :: deeper else deeper ++ [pos]

/-- The backtracking matcher: all end positions of a match of `r` in `s`
starting at `pos`, enumerated in JS backtracking preference order. -/
def mats (s : List Char) : Rx → Nat → List Nat
  | .eps, pos => [pos]
  | .ch c, pos =>
    match s.get? pos with
    | some c' => if c' = c then [pos + 1] else []
    | none => []
  | .cls neg items, pos =>
    match s.get? pos with
    | some c' => if clsMatch neg items c' then [pos + 1] else []
    | none => []
  | .dot, pos =>
    match s.get? pos with
    | some c' => if isLineTerm c' then [] else [pos + 1]
    | none => []
  | .caret, pos => if pos = 0 then [pos] else []
  | .dollar, pos => if pos = s.length then [pos] else []
  | .wb, pos => if wordBoundary s pos then [pos] else []
  | .seq a b, pos => (mats s a pos).flatMap (mats s b)
  | .alt a b, pos => mats s a pos ++ mats s b pos
  | .star lzy a, pos => starMats (mats s a) lzy (s.length + 1) pos
  | .bnd lo hi lzy a, pos =>
    (exactMats (mats s a) lo pos).flatMap (upToMats (mats s a) lzy (hi - lo))
  | .look a, pos => if (mats s a pos).isEmpty then [] else [pos]

/-- Leading decimal digits of the input as a number, with the rest. -/
def parseNatPart : List Char → Nat → Option (Nat × List Char)
  | [], _ => none
  | c :: cs, acc =>
    if isJsDigit c then
      let acc' := acc * 10 + (c.toNat - '0'.toNat)
      match parseNatPart cs acc' with
      | some r => some r
      | none => some (acc', cs)
    else if acc = 0 && true then none
    else none

/-- Reads one or more decimal digits. -/
def readNat (cs : List Char) : Option (Nat × List Char) :=
  match cs with
  | c :: _ => if isJsDigit c then parseNatPart cs 0 else none
  | [] => none

/-- Reads one class element: a literal character value or a class escape. -/
def readClsOne : List Char → Option ((Char ⊕ ClsIt) × List Char)
  | [] => none
  | ']' :: _ => none
  | '\\' :: e :: cs =>
    match e with
    | 'd' => some (.inr .dCls, cs)
    | 's' => some (.inr .sCls, cs)
    | 'w' => some (.inr .wCls, cs)
    | 'n' => some (.inl '\n', cs)
    | 't' => some (.inl '\t', cs)
    | 'r' => some (.inl '\r', cs)
    | _ => some (.inl e, cs)
  | '\\' :: [] => none
  | c :: cs => some (.inl c, cs)

/-- Parses the body of a character class after `[`, up to the closing `]`. -/
def parseClsItems : Nat → List Char → Option (List ClsIt × List Char)
  | 0, _ => none
  | _ + 1, ']' :: rest => some ([], rest)
  | fuel + 1, cs =>
    match readClsOne cs with
    | none => none
    | some (.inr it, cs₁) =>
      match parseClsItems fuel cs₁ with
      | some (its, rest) => some (it :: its, rest)
      | none => none
    | some (.inl c, cs₁) =>
      match cs₁ with
      | '-' :: ']' :: rest => some ([.one c, .one '-'], rest)
      | '-' :: cs₂ =>
        match readClsOne cs₂ with
        | some (.inl d, cs₃) =>
          match parseClsItems fuel cs₃ with
          | some (its, rest) => some (.range c d :: its, rest)
          | none => none
        | _ => none
      | _ =>
        match parseClsItems fuel cs₁ with
        | some (its, rest) => some (.one c :: its, rest)
        | none => none

/-- Parses a full character class after `[` (optional leading `^`). -/
def parseCls (cs : List Char) : Option (Rx × List Char) :=
  match cs with
  | '^' :: cs' =>
    match parseClsItems (cs'.length + 2) cs' with
    | some (its, rest) => some (.cls true its, rest)
    | none => none
  | _ =>
    match parseClsItems (cs.length + 2) cs with
    | some (its, rest) => some (.cls false its, rest)
    | none => none

/-- Applies a parsed quantifier (with optional lazy `?` suffix) to an atom,
mirroring JS quantifier semantics (`x+` behaves as `x` then `x*`). -/
def parseQuant (a : Rx) (cs : List Char) : Option (Rx × List Char) :=
  match cs with
  | '*' :: '?' :: rest => some (.star true a, rest)
  | '*' :: rest => some (.star false a, rest)
  | '+' :: '?' :: rest => some (.seq a (.star true a), rest)
  | '+' :: rest => some (.seq a (.star false a), rest)
  | '?' :: '?' :: rest => some (.bnd 0 1 true a, rest)
  | '?' :: rest => some (.bnd 0 1 false a, rest)
  | '{' :: rest =>
    match readNat rest with
    | none => none
    | some (m, rest₁) =>
      match rest₁ with
      | '}' :: rest₂ => some (.bnd m m false a, rest₂)
      | ',' :: '}' :: '?' :: rest₂ =>
        some (.seq (.bnd m m false a) (.star true a), rest₂)
      | ',' :: '}' :: rest₂ =>
        some (.seq (.bnd m m false a) (.star false a), rest₂)
      | ',' :: rest₂ =>
        match readNat rest₂ with
        | none => none
        | some (n, rest₃) =>
          if n < m then none
          else
            match rest₃ with
            | '}' :: '?' :: rest₄ =>
              some (.seq (.bnd m m false a) (.bnd 0 (n - m) true a), rest₄)
            | '}' :: rest₄ =>
              some (.seq (.bnd m m false a) (.bnd 0 (n - m) false a), rest₄)
            | _ => none
      | _ => none
  | _ => some (a, cs)

mutual

/-- Parses an alternation (the whole grammar level). -/
def parseAlt : Nat → List Char → Option (Rx × List Char)
  | 0, _ => none
  | fuel + 1, cs =>
    match parseSeq fuel cs with
    | none => none
    | some (r, cs₁) => parseAltRest fuel r cs₁

/-- Parses the remaining `| seq` arms of an alternation. -/
def parseAltRest : Nat → Rx → List Char → Option (Rx × List Char)
  | 0, _, _ => none
  | fuel + 1, acc, cs =>
    match cs with
    | '|' :: cs₁ =>
      match parseSeq fuel cs₁ with
      | none => none
      | some (r, cs₂) => parseAltRest fuel (.alt acc r) cs₂
    | _ => some (acc, cs)

/-- Parses a concatenation of quantified atoms. -/
def parseSeq : Nat → List Char → Option (Rx × List Char)
  | 0, _ => none
  | fuel + 1, cs => parseSeqRest fuel .eps cs

/-- Parses remaining terms of a concatenation. -/
def parseSeqRest : Nat → Rx → List Char → Option (Rx × List Char)
  | 0, _, _ => none
  | fuel + 1, acc, cs =>
    match cs with
    | [] => some (acc, [])
    | ')' :: _ => some (acc, cs)
    | '|' :: _ => some (acc, cs)
    | _ =>
      match parseTerm fuel cs with
      | none => none
      | some (t, cs₁) => parseSeqRest fuel (.seq acc t) cs₁

/-- Parses one atom together with an optional quantifier. -/
def parseTerm : Nat → List Char → Option (Rx × List Char)
  | 0, _ => none
  | fuel + 1, cs =>
    match parseAtom fuel cs with
    | none => none
    | some (a, cs₁) => parseQuant a cs₁

/-- Parses one atom: group, lookahead, class, escape, anchor or literal. -/
def parseAtom : Nat → List Char → Option (Rx × List Char)
  | 0, _ => none
  | fuel + 1, cs =>
    match cs with
    | [] => none
    | '(' :: '?' :: ':' :: cs₁ =>
      match parseAlt fuel cs₁ with
      | some (r, ')' :: rest) => some (r, rest)
      | _ => none
    | '(' :: '?' :: '=' :: cs₁ =>
      match parseAlt fuel cs₁ with
      | some (r, ')' :: rest) => some (.look r, rest)
      | _ => none
    | '(' :: '?' :: _ => none
    | '(' :: cs₁ =>
      match parseAlt fuel cs₁ with
      | some (r, ')' :: rest) => some (r, rest)
      | _ => none
    | '[' :: cs₁ =>
      match parseCls cs₁ with
      | some (r, rest) => some (r, rest)
      | none => none
    | '.' :: cs₁ => some (.dot, cs₁)
    | '^' :: cs₁ => some (.caret, cs₁)
    | '$' :: cs₁ => some (.dollar, cs₁)
    | '\\' :: e :: cs₁ =>
      match e with
      | 'd' => some (.cls false [.dCls], cs₁)
      | 's' => some (.cls false [.sCls], cs₁)
      | 'w' => some (.cls false [.wCls], cs₁)
      | 'D' => some (.cls true [.dCls], cs₁)
      | 'S' => some (.cls true [.sCls], cs₁)
      | 'W' => some (.cls true [.wCls], cs₁)
      | 'b' => some (.wb, cs₁)
      | 'n' => some (.ch '\n', cs₁)
      | 't' => some (.ch '\t', cs₁)
      | 'r' => some (.ch '\r', cs₁)
      | _ =>
        if isJsDigit e then none
        else some (.ch e, cs₁)
    | '\\' :: [] => none
    | ')' :: _ => none
    | '|' :: _ => none
    | '*' :: _ => none
    | '+' :: _ => none
    | '?' :: _ => none
    | '{' :: _ => none
    | '}' :: _ => none
    | ']' :: _ => none
    | c :: cs₁ => some (.ch c, cs₁)

end

/-- Compilation of a pattern-source string, modelling `new RegExp(p, 'g')`:
`none` models the thrown `SyntaxError` for a malformed source. -/
def compileRegex (p : List Char) : Option Rx :=
  match parseAlt (2 * p.length + 8) p with
  | some (r, []) => some r
  | _ => none

/-- First match of `r` in `s` at or after position `pos`: the leftmost start
position that admits a match, paired with the preferred end position. -/
def scanFrom (r : Rx) (s : List Char) : Nat → Nat → Option (Nat × Nat)
  | 0, _ => none
  | fuel + 1, q =>
    if q > s.length then none
    else
      match (mats s r q).head? with
      | some e => some (q, e)
      | none => scanFrom r s fuel (q + 1)

/-- Remaining iterations of the global-match loop. -/
def matchAllAux (r : Rx) (s : List Char) : Nat → Nat → List (Nat × Nat)
  | 0, _ => []
  | fuel + 1, pos =>
    match scanFrom r s (s.length + 1 - pos) pos with
    | none => []
    | some (q, e) =>
      (q, e) :: matchAllAux r s fuel (if e = q then e + 1 else e)

/-- Models `Array.from(text.matchAll(new RegExp(p, 'g')))` for a compiled
pattern: all (start, end) occurrence pairs; after a match the scan resumes at
its end, and a zero-length match advances the position by one. -/
def matchAll (r : Rx) (s : List Char) : List (Nat × Nat) :=
  matchAllAux r s (s.length + 1) 0

/-- Characters `start..stop` (exclusive) of a string. -/
def sliceList (s : List Char) (start stop : Nat) : List Char :=
  (s.drop start).take (stop - start)

/-- Models JS `String.prototype.includes`. -/
def listIncludes (need : List Char) : List Char → Bool
  | [] => need.isEmpty
  | c :: t => need.isPrefixOf (c :: t) || listIncludes need t

/-- Models `hay.includes(sub)` on `String`. -/
def jsIncludes (hay sub : String) : Bool :=
  listIncludes sub.data hay.data

/-- Models `s.replace(/[-\s]/g, '')`: drop hyphens and whitespace. -/
def cleanSeps (s : List Char) : List Char :=
  s.filter (fun c => !(c = '-' || isJsSpace c))

/-- Models `a.split(sep)` on a single-character separator. -/
def splitOnChar (sep : Char) : List Char → List (List Char)
  | [] => [[]]
  | c :: t =>
    let r := splitOnChar sep t
    if c = sep then [] :: r
    else
      match r with
      | h :: t' => (c :: h) :: t'
      | [] => [[c]]

/-- The `MaskingType` enum of `src/types/index.ts`. -/
inductive MaskingType where
  | mosaic
  | blur
  | blackout
  | pixelate
  deriving Repr, DecidableEq

/-- The `PIIPattern` interface of `src/types/index.ts`: a named pattern whose
`pattern` field is the regular-expression source string. -/
structure PIIPattern where
  name : String
  pattern : String
  maskingType : MaskingType
  enabled : Bool
  deriving Repr, DecidableEq

/-- The `sensitivity` union type `'low' | 'medium' | 'high'`. -/
inductive Sensitivity where
  | low
  | medium
  | high
  deriving Repr, DecidableEq

/-- The `ExtensionSettings` interface; `maskingTypes` is the
`Record<string, MaskingType>` modelled as an association list. -/
structure ExtensionSettings where
  enabled : Bool
  maskingTypes : List (String × MaskingType)
  patterns : List PIIPattern
  realTimeProcessing : Bool
  sensitivity : Sensitivity
  deriving Repr, DecidableEq

/-- The `PIIMatch` interface. The TS field `type` is a Lean keyword and is
rendered `ptype`; the `element` reference is modelled by the owning
element's numeric identity (`===` on elements becomes `Nat` equality). -/
structure PIIMatch where
  text : String
  startIndex : Nat
  endIndex : Nat
  ptype : String
  element : Nat
  maskingType : MaskingType
  deriving Repr, DecidableEq

namespace PIIPatterns

/-- `PIIPatterns.JAPANESE_NAME` of `src/utils/pii-patterns.ts`. -/
def JAPANESE_NAME : PIIPattern :=
  { pattern := "[一-龯々〇]\x7b1,4\x7d\\s*[一-龯々〇]\x7b1,4\x7d(?=[さん|様|氏|君|ちゃん|くん]|$|\\s)"
    name := "japaneseName", maskingType := .blur, enabled := true }

/-- `PIIPatterns.EMAIL`. -/
def EMAIL : PIIPattern :=
  { pattern := "[a-zA-Z0-9._%+-]+@[a-zA-Z0-9.-]+\\.[a-zA-Z]\x7b2,\x7d"
    name := "email", maskingType := .blur, enabled := true }

/-- `PIIPatterns.PHONE_JP`. -/
def PHONE_JP : PIIPattern :=
  { pattern := "(?:(?:\\+81|0)\\s?(?:\\d\x7b1,4\x7d[-\\s]?)?\\d\x7b1,4\x7d[-\\s]?\\d\x7b4\x7d|\\d\x7b3,4\x7d[-\\s]?\\d\x7b1,4\x7d[-\\s]?\\d\x7b4\x7d)"
    name := "phone", maskingType := .mosaic, enabled := true }

/-- `PIIPatterns.CREDIT_CARD`. -/
def CREDIT_CARD : PIIPattern :=
  { pattern := "\\b(?:4\\d\x7b3\x7d|5[1-5]\\d\x7b2\x7d|3[47]\\d\x7b2\x7d|6011)[\\s-]?\\d\x7b4\x7d[\\s-]?\\d\x7b4\x7d[\\s-]?\\d\x7b4\x7d\\b"
    name := "creditCard", maskingType := .pixelate, enabled := true }

/-- `PIIPatterns.POSTAL_CODE_JP`. -/
def POSTAL_CODE_JP : PIIPattern :=
  { pattern := "\\b\\d\x7b3\x7d[-\\s]?\\d\x7b4\x7d\\b"
    name := "postalCode", maskingType := .blackout, enabled := true }

/-- `PIIPatterns.IP_ADDRESS` (disabled by default). -/
def IP_ADDRESS : PIIPattern :=
  { pattern := "\\b(?:(?:25[0-5]|2[0-4][0-9]|[01]?[0-9][0-9]?)\\.)\x7b3\x7d(?:25[0-5]|2[0-4][0-9]|[01]?[0-9][0-9]?)\\b"
    name := "ipAddress", maskingType := .blur, enabled := false }

/-- `PIIPatterns.ADDRESS_JP`. -/
def ADDRESS_JP : PIIPattern :=
  { pattern := "[都道府県].*?[市区町村郡][一-龯0-9一二三四五六七八九十百千]+(?:丁目|番地|号)?"
    name := "address", maskingType := .blackout, enabled := true }

/-- `PIIPatterns.MY_NUMBER`. -/
def MY_NUMBER : PIIPattern :=
  { pattern := "\\b\\d\x7b4\x7d[\\s-]?\\d\x7b4\x7d[\\s-]?\\d\x7b4\x7d\\b"
    name := "myNumber", maskingType := .blackout, enabled := true }

/-- `PIIPatterns.BANK_ACCOUNT` (disabled by default). -/
def BANK_ACCOUNT : PIIPattern :=
  { pattern := "\\b\\d\x7b7\x7d\\b"
    name := "bankAccount", maskingType := .pixelate, enabled := false }

/-- `PIIPatterns.BIRTH_DATE`. -/
def BIRTH_DATE : PIIPattern :=
  { pattern := "(?:19|20)\\d\x7b2\x7d[年/-](?:0?[1-9]|1[0-2])[月/-](?:0?[1-9]|[12]\\d|3[01])[日]?"
    name := "birthDate", maskingType := .blur, enabled := true }

/-- `PIIPatterns.getAllPatterns`, in the source's order. -/
def getAllPatterns : List PIIPattern :=
  [EMAIL, PHONE_JP, CREDIT_CARD, POSTAL_CODE_JP, JAPANESE_NAME,
   ADDRESS_JP, MY_NUMBER, BIRTH_DATE, IP_ADDRESS, BANK_ACCOUNT]

/-- `PIIPatterns.getEnabledPatterns`. -/
def getEnabledPatterns : List PIIPattern :=
  getAllPatterns.filter (·.enabled)

/-- `PIIPatterns.getPatternByName`. -/
def getPatternByName (name : String) : Option PIIPattern :=
  getAllPatterns.find? (·.name = name)

/-- The `formKeywords` list of `PIIPatterns.isLikelyPII`. -/
def formKeywords : List String :=
  ["名前", "name", "email", "phone", "電話", "住所", "address", "birthday"]

/-- The `piiKeywords` list of `PIIPatterns.isLikelyPII`. -/
def piiKeywords : List String :=
  ["個人情報", "氏名", "連絡先", "生年月日", "プロフィール"]

/-- `PIIPatterns.isLikelyPII`: does a PII-context keyword occur in the
lower-cased context string. (The source also lower-cases `text` into a local
that it never reads.) -/
def isLikelyPII (_text : String) (context : String) : Bool :=
  let lowerContext := String.mk (lowerStr context.data)
  let hasFormContext := formKeywords.any (fun kw => jsIncludes lowerContext kw)
  let hasPIIContext := piiKeywords.any (fun kw => jsIncludes lowerContext kw)
  hasFormContext || hasPIIContext

/-- `PIIPatterns.filterFalsePositives`: the per-type coarse false-positive
filters. -/
def filterFalsePositives (ms : List String) (ptype : String) : List String :=
  if ptype = "phone" then
    ms.filter (fun m =>
      let cleaned := cleanSeps m.data
      decide (cleaned.length ≥ 10) && !("000".data.isPrefixOf cleaned))
  else if ptype = "creditCard" then
    ms.filter (fun m =>
      let cleaned := cleanSeps m.data
      decide (cleaned.length = 16) && !("0000".data.isPrefixOf cleaned))
  else if ptype = "japaneseName" then
    ms.filter (fun m => decide (m.length ≥ 2) && decide (m.length ≤ 8))
  else
    ms

end PIIPatterns

/-- DOM-derived data of a text node's parent element, as consumed by
`buildDetectionContext`: the element's identity, its lower-case-relevant tag
name, and the strings the external DOM helpers `getFormContext` and
`getNearbyText` produce for it (their computation is outside the detection
core). -/
structure ElementInfo where
  id : Nat
  tagName : String
  formContext : String
  nearbyText : String
  deriving Repr, DecidableEq

/-- A text node handed to `detectPII`: its text content and its parent
element (`none` models a detached node, which the source skips). -/
structure TextNode where
  parent : Option ElementInfo
  text : String
  deriving Repr, DecidableEq

/-- The `DetectionContext` interface of `src/utils/pii-detector.ts`, with the
element reference rendered as its numeric identity. -/
structure DetectionContext where
  element : Nat
  textContent : List Char
  elementType : String
  formContext : String
  nearbyText : String
  deriving Repr, DecidableEq

namespace PIIDetector

/-- `buildDetectionContext`: packages a node's text with its element kind and
the form/nearby context strings. -/
def buildDetectionContext (e : ElementInfo) (text : String) : DetectionContext :=
  { element := e.id
    textContent := text.data
    elementType := String.mk (lowerStr e.tagName.data)
    formContext := e.formContext
    nearbyText := e.nearbyText }

/-- `isValidEmail`: exactly one `@`, non-empty local and domain, domain
contains a dot. -/
def isValidEmail (email : String) : Bool :=
  let parts := splitOnChar '@' email.data
  match parts with
  | [local_, domain] =>
    decide (local_.length > 0) && decide (domain.length > 0) &&
      listIncludes ".".data domain
  | _ => false

/-- `isValidPhone`: 10–11 digits after separator removal, not starting with
four zeros and not all-zero. -/
def isValidPhone (phone : String) : Bool :=
  let cleaned := cleanSeps phone.data
  if cleaned.length < 10 || cleaned.length > 11 then false
  else if "0000".data.isPrefixOf cleaned || cleaned = "0000000000".data then false
  else true

/-- One digit of the Luhn sum (`parseInt` of a non-digit is NaN, modelled by
`none`, which poisons the whole sum). -/
def luhnDigit (c : Char) (isEven : Bool) : Option Nat :=
  if isJsDigit c then
    let d := c.toNat - '0'.toNat
    if isEven then
      let t := d * 2
      some (if t > 9 then t - 9 else t)
    else some d
  else none

/-- The Luhn sum over the reversed digit string; `isEven` toggles starting
from `false` at the rightmost character, exactly as the source's loop. -/
def luhnSum : List Char → Bool → Option Nat
  | [], _ => some 0
  | c :: rest, isEven =>
    match luhnDigit c isEven, luhnSum rest (!isEven) with
    | some d, some s => some (d + s)
    | _, _ => none

/-- `luhnCheck`: the checksum is valid iff the sum is a real number divisible
by 10 (a NaN sum compares unequal to 0, i.e. the check fails). -/
def luhnCheck (cardNumber : List Char) : Bool :=
  match luhnSum cardNumber.reverse false with
  | some total => total % 10 = 0
  | none => false

/-- The `/^(\d)\1+$/` test: the whole string is one digit repeated at least
twice. -/
def allSameDigit (s : List Char) : Bool :=
  match s with
  | c :: rest => isJsDigit c && !rest.isEmpty && rest.all (· = c)
  | [] => false

/-- `isValidCreditCard`: 13–19 characters after separator removal, not a
single repeated digit, and a passing Luhn checksum. -/
def isValidCreditCard (cardNumber : String) : Bool :=
  let cleaned := cleanSeps cardNumber.data
  if cleaned.length < 13 || cleaned.length > 19 then false
  else if allSameDigit cleaned then false
  else luhnCheck cleaned

/-- A character of the inline name-validation class
`[一-龯々〇ひらがなカタカナぁ-ゖァ-ヺ]` (the literal kana of
the class lie inside the two kana ranges). -/
def isNameChar (c : Char) : Bool :=
  ('一' ≤ c && c ≤ '龯') || c = '々' || c = '〇' ||
  ('ぁ' ≤ c && c ≤ 'ゖ') || ('ァ' ≤ c && c ≤ 'ヺ')

/-- `isValidJapaneseName`: length 2–8 and every character from the CJK/kana
class. -/
def isValidJapaneseName (name : String) : Bool :=
  if name.length < 2 || name.length > 8 then false
  else !name.data.isEmpty && name.data.all isNameChar

/-- `isValidMatch`: the per-type structural validator dispatch. -/
def isValidMatch (text : String) (ptype : String) : Bool :=
  if ptype = "email" then isValidEmail text
  else if ptype = "phone" then isValidPhone text
  else if ptype = "creditCard" then isValidCreditCard text
  else if ptype = "japaneseName" then isValidJapaneseName text
  else true

/-- The `highConfidenceElements` list of `isMediumConfidenceMatch`. -/
def highConfidenceElements : List String :=
  ["input", "textarea", "span", "div"]

/-- `isMediumConfidenceMatch`: form-context corroboration (only when the
form-context string is truthy, i.e. non-empty) or a high-confidence element
kind. -/
def isMediumConfidenceMatch (text : String) (_pat : PIIPattern)
    (context : DetectionContext) : Bool :=
  if context.formContext ≠ "" && PIIPatterns.isLikelyPII text context.formContext then
    true
  else if highConfidenceElements.contains context.elementType then true
  else false

/-- Models the JS `a || b` fallback chain on strings (empty = falsy). -/
def jsOrStr (a b : String) : String :=
  if a = "" then b else a

/-- `shouldIncludeMatch`: structural validity, then the sensitivity policy. -/
def shouldIncludeMatch (stg : ExtensionSettings) (matchText : String)
    (pat : PIIPattern) (context : DetectionContext) : Bool :=
  if !isValidMatch matchText pat.name then false
  else if stg.sensitivity = .high then true
  else if stg.sensitivity = .low then
    PIIPatterns.isLikelyPII matchText
      (jsOrStr context.formContext (jsOrStr context.nearbyText ""))
  else isMediumConfidenceMatch matchText pat context

/-- `getMaskingType`: the per-type effect with blur as the fallback. -/
def getMaskingType (stg : ExtensionSettings) (ptype : String) : MaskingType :=
  (stg.maskingTypes.lookup ptype).getD .blur

/-- `detectInText`: for every enabled pattern, compile it (a malformed
source throws, modelled as `Except.error`), run the global scan, and keep
each occurrence that passes `shouldIncludeMatch`. -/
def detectInText (stg : ExtensionSettings) (patterns : List PIIPattern)
    (context : DetectionContext) : Except String (List PIIMatch) :=
  patterns.foldlM
    (fun acc pat =>
      if !pat.enabled then pure acc
      else
        match compileRegex pat.pattern.data with
        | none => Except.error pat.pattern
        | some r =>
          let occs := matchAll r context.textContent
          let nm := occs.filterMap (fun oc =>
            let matchText := String.mk (sliceList context.textContent oc.1 oc.2)
            if shouldIncludeMatch stg matchText pat context then
              some { text := matchText
                     startIndex := oc.1
                     endIndex := oc.1 + matchText.length
                     ptype := pat.name
                     element := context.element
                     maskingType := getMaskingType stg pat.name }
            else none)
          pure (acc ++ nm))
    []

/-- `isOverlapping`: the `[start, end)` intervals of two matches
intersect. -/
def isOverlapping (m1 m2 : PIIMatch) : Bool :=
  !(decide (m1.endIndex ≤ m2.startIndex) || decide (m2.endIndex ≤ m1.startIndex))

/-- The `priorityOrder` array of `shouldReplaceMatch`. -/
def priorityOrder : List String :=
  ["creditCard", "myNumber", "email", "phone", "address", "japaneseName"]

/-- Models `Array.prototype.indexOf`: position of the first occurrence, `-1`
when absent. -/
def jsIndexOfAux (x : String) : List String → Nat → Int
  | [], _ => -1
  | h :: t, i => if h = x then (i : Int) else jsIndexOfAux x t (i + 1)

/-- `priorityOrder.indexOf(t)` as an integer. -/
def jsIndexOf (l : List String) (x : String) : Int :=
  jsIndexOfAux x l 0

/-- `shouldReplaceMatch`: a strictly longer text always replaces; otherwise
the `indexOf`-based priority comparison decides (an absent type has index
`-1`). -/
def shouldReplaceMatch (existing newMatch : PIIMatch) : Bool :=
  if newMatch.text.length > existing.text.length then true
  else decide (jsIndexOf priorityOrder newMatch.ptype <
    jsIndexOf priorityOrder existing.ptype)

/-- The overlap predicate of the `result.find` callback inside
`removeDuplicateMatches`: an already-kept match of the same element whose
interval intersects the new one. -/
def overlapsKept (m ex : PIIMatch) : Bool :=
  decide (ex.element = m.element) && isOverlapping ex m

/-- Index of the first kept match satisfying `overlapsKept` (the source's
`result.find` followed by `result.indexOf` of the found object). -/
def findOverlapIdx (m : PIIMatch) : List PIIMatch → Option Nat
  | [] => none
  | ex :: rest =>
    if overlapsKept m ex then some 0
    else (findOverlapIdx m rest).map (· + 1)

/-- One iteration of the `removeDuplicateMatches` loop: find the first kept
match of the same element that overlaps, and either append, replace in
place, or drop. -/
def dedupStep (res : List PIIMatch) (m : PIIMatch) : List PIIMatch :=
  match findOverlapIdx m res with
  | none => res ++ [m]
  | some i =>
    match res.get? i with
    | some ex => if shouldReplaceMatch ex m then res.set i m else res
    | none => res

/-- `removeDuplicateMatches`. -/
def removeDuplicateMatches (ms : List PIIMatch) : List PIIMatch :=
  ms.foldl dedupStep []

/-- The sort comparator of `postProcessMatches`: `0` across different
elements, `startIndex` difference within one element. -/
def jsCompare (a b : PIIMatch) : Int :=
  if a.element ≠ b.element then 0
  else (a.startIndex : Int) - (b.startIndex : Int)

/-- The comparator as a `Bool` "less-or-equal" for the stable sort. -/
def jsLe (a b : PIIMatch) : Bool :=
  decide (jsCompare a b ≤ 0)

/-- Stable merge of two runs (left preferred on ties). -/
def mergeJS (le : PIIMatch → PIIMatch → Bool) :
    Nat → List PIIMatch → List PIIMatch → List PIIMatch
  | 0, xs, ys => xs ++ ys
  | _ + 1, [], ys => ys
  | _ + 1, x :: xs, [] => x :: xs
  | fuel + 1, x :: xs, y :: ys =>
    if le x y then x :: mergeJS le fuel xs (y :: ys)
    else y :: mergeJS le fuel (x :: xs) ys

/-- Fuelled stable top-down merge sort over contiguous halves, modelling the
stable `Array.prototype.sort`. -/
def msortJS (le : PIIMatch → PIIMatch → Bool) : Nat → List PIIMatch → List PIIMatch
  | 0, l => l
  | fuel + 1, l =>
    if l.length ≤ 1 then l
    else
      let left := l.take (l.length / 2)
      let right := l.drop (l.length / 2)
      mergeJS le (l.length + 1) (msortJS le fuel left) (msortJS le fuel right)

/-- `sortJS le l`: the stable sort with enough fuel. -/
def sortJS (le : PIIMatch → PIIMatch → Bool) (l : List PIIMatch) : List PIIMatch :=
  msortJS le l.length l

/-- `postProcessMatches`: deduplicate then sort with the source's
comparator. -/
def postProcessMatches (ms : List PIIMatch) : List PIIMatch :=
  sortJS jsLe (removeDuplicateMatches ms)

/-- The `PIIDetector` class state: the held settings snapshot and the
materialized pattern list. -/
structure State where
  settings : ExtensionSettings
  patterns : List PIIPattern
  deriving Repr, DecidableEq

/-- `initializePatterns`: a non-empty caller-supplied pattern list overrides
the defaults. -/
def initializePatterns (stg : ExtensionSettings) : List PIIPattern :=
  if !stg.patterns.isEmpty then stg.patterns
  else PIIPatterns.getAllPatterns

/-- The constructor `new PIIDetector(settings)`. -/
def State.new (stg : ExtensionSettings) : State :=
  { settings := stg, patterns := initializePatterns stg }

/-- `updateSettings`: replaces the snapshot and re-materializes the pattern
list. -/
def updateSettings (_d : State) (stg : ExtensionSettings) : State :=
  State.new stg

/-- The per-node candidate collection loop of `detectPII` (everything before
`postProcessMatches`): skip detached and whitespace-only nodes, detect in
the rest, concatenating in node order. A thrown pattern-compilation error
propagates. -/
def collectMatches (d : State) (nodes : List TextNode) :
    Except String (List PIIMatch) :=
  nodes.foldlM
    (fun acc node =>
      match node.parent with
      | none => pure acc
      | some e =>
        if node.text.data.all isJsSpace then pure acc
        else do
          let nm ← detectInText d.settings d.patterns
            (buildDetectionContext e node.text)
          pure (acc ++ nm))
    []

/-- `detectPII`: collect candidates over all nodes, then post-process. -/
def detectPII (d : State) (nodes : List TextNode) :
    Except String (List PIIMatch) :=
  (collectMatches d nodes).map postProcessMatches

end PIIDetector

namespace PIIDetector

/-- Two candidate matches of the same candidate set that share a span and
whose intervals intersect (the edge relation of an overlap cluster). -/
def OverRel (ms : List PIIMatch) (a b : PIIMatch) : Prop :=
  a ∈ ms ∧ b ∈ ms ∧ a.element = b.element ∧ isOverlapping a b = true

/-- Connectivity inside an overlap cluster: the reflexive-transitive closure
of the overlap relation within one candidate set. -/
def Linked (ms : List PIIMatch) : PIIMatch → PIIMatch → Prop :=
  Relation.ReflTransGen (OverRel ms)

end PIIDetector

/-- Modelled from the spec: the claimed Medium-sensitivity acceptance
condition, for comparison against `shouldIncludeMatch`: a structurally valid
candidate is accepted iff a PII-context keyword appears in the form-context
string or, if that string is absent, in the nearby-sibling-text string, or
the element kind is one of input/textarea/span/div. -/
def specMediumAccepts (text : String) (ptypeName : String)
    (ctx : DetectionContext) : Bool :=
  PIIDetector.isValidMatch text ptypeName &&
    (PIIPatterns.isLikelyPII text
        (if ctx.formContext = "" then ctx.nearbyText else ctx.formContext) ||
      PIIDetector.highConfidenceElements.contains ctx.elementType)

/-- Default-like settings: empty pattern override (so the registry defaults
are materialized), no per-type effect entries, High sensitivity. -/
def highDefaults : ExtensionSettings :=
  { enabled := true, maskingTypes := [], patterns := [],
    realTimeProcessing := true, sensitivity := .high }

/-- The same settings at Medium sensitivity. -/
def mediumDefaults : ExtensionSettings :=
  { highDefaults with sensitivity := .medium }

/-- Settings whose caller-supplied pattern list holds one enabled pattern
with the malformed source `(`. -/
def badPatternSettings : ExtensionSettings :=
  { enabled := true, maskingTypes := [], realTimeProcessing := true,
    sensitivity := .high,
    patterns := [{ name := "custom", pattern := "(",
                   maskingType := .blur, enabled := true }] }

/-- A plain paragraph element with no form or sibling context. -/
def elemP1 : ElementInfo :=
  { id := 1, tagName := "p", formContext := "", nearbyText := "" }

/-- A second, distinct paragraph element. -/
def elemP2 : ElementInfo :=
  { id := 2, tagName := "p", formContext := "", nearbyText := "" }

/-- A text node under a given parent element. -/
def nodeUnder (e : ElementInfo) (t : String) : TextNode :=
  { parent := some e, text := t }

/-- The spec's end-to-end example input span. -/
def contactNode : TextNode := nodeUnder elemP1 "Contact: test@example.com"

/-- A span on which a long address candidate overlaps two postal-code
candidates (and a phone candidate), exercising overlap resolution. -/
def jpMixedNode : TextNode := nodeUnder elemP1 "都 123-4567 999-8888 市5号"

/-- A span holding a Luhn-valid credit-card number. -/
def cardNode : TextNode := nodeUnder elemP1 "4111 1111 1111 1111"

/-- A short span with no digits and no pattern matches. -/
def helloNode : TextNode := nodeUnder elemP1 "hello"

/-- A whitespace-only span. -/
def blankNode : TextNode := nodeUnder elemP1 "   "

/-- Three spans: two under the first element with disjoint email offsets,
one under the second element, interleaved so the first element's matches are
non-contiguous in node order. -/
def threeNodes : List TextNode :=
  [nodeUnder elemP1 "zzzzzz a@b.cd", nodeUnder elemP2 "x@y.io",
   nodeUnder elemP1 "x@y.io"]

/-- An email match of length 8 on the interval `[0, 8)` of element 1. -/
def mEmailTie : PIIMatch :=
  { text := "a@bc.def", startIndex := 0, endIndex := 8,
    ptype := "email", element := 1, maskingType := .blur }

/-- A postal-code match (a type absent from the priority list) of the same
length on the same interval of the same element. -/
def mPostalTie : PIIMatch :=
  { text := "123-4567", startIndex := 0, endIndex := 8,
    ptype := "postalCode", element := 1, maskingType := .blackout }

/-- The single match the detector produces for `contactNode`. -/
def mContactMatch : PIIMatch :=
  { text := "test@example.com", startIndex := 9, endIndex := 25,
    ptype := "email", element := 1, maskingType := .blur }

/-- The surviving address match for `jpMixedNode`. -/
def mAddrKept : PIIMatch :=
  { text := "都 123-4567 999-8888 市5号", startIndex := 0, endIndex := 23,
    ptype := "address", element := 1, maskingType := .blur }

/-- The second postal-code match for `jpMixedNode`, which also survives. -/
def mPostalKept : PIIMatch :=
  { text := "999-8888", startIndex := 11, endIndex := 19,
    ptype := "postalCode", element := 1, maskingType := .blur }

/-- The credit-card match the detector produces for `cardNode`. -/
def mCardOut : PIIMatch :=
  { text := "4111 1111 1111 1111", startIndex := 0, endIndex := 19,
    ptype := "creditCard", element := 1, maskingType := .blur }

/-- First output match for `threeNodes`: element 1, offsets `[7, 13)`. -/
def mA1Out : PIIMatch :=
  { text := "a@b.cd", startIndex := 7, endIndex := 13,
    ptype := "email", element := 1, maskingType := .blur }

/-- Second output match for `threeNodes`: element 2, offsets `[0, 6)`. -/
def mBOut : PIIMatch :=
  { text := "x@y.io", startIndex := 0, endIndex := 6,
    ptype := "email", element := 2, maskingType := .blur }

/-- Third output match for `threeNodes`: element 1 again, offsets `[0, 6)`. -/
def mA2Out : PIIMatch :=
  { text := "x@y.io", startIndex := 0, endIndex := 6,
    ptype := "email", element := 1, maskingType := .blur }

/-- A detection context whose element kind is `input` (and no form or
nearby context). -/
def ctxInputProbe : DetectionContext :=
  { element := 1, textContent := "a@b.cd".data, elementType := "input",
    formContext := "", nearbyText := "" }

/-- A detection context with an empty form-context string, a nearby-text
string containing the keyword `name`, and a non-high-confidence element
kind. -/
def ctxMediumProbe : DetectionContext :=
  { element := 1, textContent := "a@b.cd".data, elementType := "p",
    formContext := "", nearbyText := "name" }

namespace PIIDetector

theorem findOverlapIdx_some {m : PIIMatch} {l : List PIIMatch} {i : Nat}
    (h : findOverlapIdx m l = some i) :
    ∃ ex, l.get? i = some ex ∧ overlapsKept m ex = true := by
  induction l generalizing i with
  | nil => simp [findOverlapIdx] at h
  | cons x xs ih =>
    by_cases hx : overlapsKept m x = true
    · simp [findOverlapIdx, hx] at h
      subst h
      exact ⟨x, rfl, hx⟩
    · simp [findOverlapIdx, hx] at h
      obtain ⟨j, hj, rfl⟩ := h
      obtain ⟨ex, hex, hkept⟩ := ih hj
      exact ⟨ex, by simpa using hex, hkept⟩

theorem findOverlapIdx_none {m : PIIMatch} {l : List PIIMatch}
    (h : findOverlapIdx m l = none) :
    ∀ ex ∈ l, overlapsKept m ex = false := by
  induction l with
  | nil => simp
  | cons x xs ih =>
    by_cases hx : overlapsKept m x = true
    · simp [findOverlapIdx, hx] at h
    · simp [findOverlapIdx, hx] at h
      intro ex hex
      rcases List.mem_cons.mp hex with rfl | hmem
      · simpa using hx
      · exact ih h ex hmem

theorem mem_set_or_eq_get {l : List PIIMatch} {i : Nat} {ex x b : PIIMatch}
    (hx : x ∈ l) (hget : l.get? i = some ex) :
    x ∈ l.set i b ∨ x = ex := by
  induction l generalizing i with
  | nil => simp at hx
  | cons y ys ih =>
    cases i with
    | zero =>
      have hy : y = ex := Option.some.inj hget
      rcases List.mem_cons.mp hx with rfl | hmem
      · exact Or.inr hy
      · exact Or.inl (show x ∈ b :: ys from List.mem_cons_of_mem _ hmem)
    | succ j =>
      have hget' : ys.get? j = some ex := hget
      rcases List.mem_cons.mp hx with rfl | hmem
      · exact Or.inl (show x ∈ x :: ys.set j b from List.mem_cons_self _ _)
      · rcases ih hmem hget' with h | h
        · exact Or.inl (show x ∈ y :: ys.set j b from List.mem_cons_of_mem _ h)
        · exact Or.inr h

theorem mem_dedupStep {res : List PIIMatch} {m x : PIIMatch}
    (h : x ∈ dedupStep res m) : x ∈ res ∨ x = m := by
  unfold dedupStep at h
  split at h
  · rcases List.mem_append.mp h with h' | h'
    · exact Or.inl h'
    · exact Or.inr (List.mem_singleton.mp h')
  · split at h
    · split at h
      · rcases List.mem_or_eq_of_mem_set h with h' | h'
        · exact Or.inl h'
        · exact Or.inr h'
      · exact Or.inl h
    · exact Or.inl h

theorem mem_foldl_dedup {rest : List PIIMatch} :
    ∀ {acc : List PIIMatch} {x : PIIMatch},
      x ∈ rest.foldl dedupStep acc → x ∈ acc ∨ x ∈ rest := by
  induction rest with
  | nil => intro acc x h; exact Or.inl h
  | cons m ms ih =>
    intro acc x h
    rcases ih h with h' | h'
    · rcases mem_dedupStep h' with h'' | h''
      · exact Or.inl h''
      · exact Or.inr (by simp [h''])
    · exact Or.inr (List.mem_cons_of_mem _ h')

theorem mem_removeDuplicateMatches {ms : List PIIMatch} {x : PIIMatch}
    (h : x ∈ removeDuplicateMatches ms) : x ∈ ms := by
  rcases mem_foldl_dedup h with h' | h'
  · simp at h'
  · exact h'

theorem mem_mergeJS {le : PIIMatch → PIIMatch → Bool} :
    ∀ {fuel : Nat} {xs ys : List PIIMatch} {x : PIIMatch},
      (x ∈ mergeJS le fuel xs ys ↔ x ∈ xs ∨ x ∈ ys) := by
  intro fuel
  induction fuel with
  | zero => intro xs ys x; simp [mergeJS, List.mem_append]
  | succ n ih =>
    intro xs ys x
    match xs, ys with
    | [], ys => simp [mergeJS]
    | x' :: xs', [] => simp [mergeJS]
    | x' :: xs', y' :: ys' =>
      by_cases hle : le x' y' = true
      · simp only [mergeJS, if_pos hle, List.mem_cons, ih]
        tauto
      · simp only [mergeJS, if_neg hle, List.mem_cons, ih]
        tauto

theorem mem_msortJS {le : PIIMatch → PIIMatch → Bool} :
    ∀ {fuel : Nat} {l : List PIIMatch} {x : PIIMatch},
      (x ∈ msortJS le fuel l ↔ x ∈ l) := by
  intro fuel
  induction fuel with
  | zero => intro l x; simp [msortJS]
  | succ n ih =>
    intro l x
    by_cases hlen : l.length ≤ 1
    · simp [msortJS, hlen]
    · simp only [msortJS, if_neg hlen, mem_mergeJS, ih]
      rw [← List.mem_append, List.take_append_drop]

theorem mem_sortJS {le : PIIMatch → PIIMatch → Bool} {l : List PIIMatch}
    {x : PIIMatch} : x ∈ sortJS le l ↔ x ∈ l :=
  mem_msortJS

theorem mem_postProcessMatches {ms : List PIIMatch} {x : PIIMatch}
    (h : x ∈ postProcessMatches ms) : x ∈ ms :=
  mem_removeDuplicateMatches (mem_sortJS.mp h)

theorem foldlM_ok_prop {α : Type} {P : PIIMatch → Prop}
    {f : List PIIMatch → α → Except String (List PIIMatch)}
    (hf : ∀ acc a l', f acc a = .ok l' → (∀ m ∈ acc, P m) → (∀ m ∈ l', P m)) :
    ∀ (xs : List α) (acc l : List PIIMatch),
      List.foldlM f acc xs = .ok l → (∀ m ∈ acc, P m) → ∀ m ∈ l, P m := by
  intro xs
  induction xs with
  | nil =>
    intro acc l h hacc
    simp only [List.foldlM_nil] at h
    cases h
    exact hacc
  | cons a xs ih =>
    intro acc l h hacc
    rw [List.foldlM_cons] at h
    cases hfa : f acc a with
    | error e =>
      rw [hfa] at h
      simp only [Bind.bind, Except.bind] at h
      cases h
    | ok acc' =>
      rw [hfa] at h
      simp only [Bind.bind, Except.bind] at h
      exact ih acc' l h (hf acc a acc' hfa hacc)

theorem foldlM_ok_total {α : Type}
    {f : List PIIMatch → α → Except String (List PIIMatch)} :
    ∀ (xs : List α), (∀ acc a, a ∈ xs → ∃ l', f acc a = .ok l') →
      ∀ acc, ∃ l, List.foldlM f acc xs = .ok l := by
  intro xs
  induction xs with
  | nil => intro _ acc; exact ⟨acc, rfl⟩
  | cons a xs ih =>
    intro hf acc
    obtain ⟨acc', hacc'⟩ := hf acc a (List.mem_cons_self _ _)
    obtain ⟨l, hl⟩ := ih (fun acc a ha => hf acc a (List.mem_cons_of_mem _ ha)) acc'
    refine ⟨l, ?_⟩
    rw [List.foldlM_cons, hacc']
    simpa only [Bind.bind, Except.bind] using hl

theorem shouldInclude_valid {stg : ExtensionSettings} {t : String}
    {pat : PIIPattern} {ctx : DetectionContext}
    (h : shouldIncludeMatch stg t pat ctx = true) :
    isValidMatch t pat.name = true := by
  cases hv : isValidMatch t pat.name with
  | true => rfl
  | false => simp [shouldIncludeMatch, hv] at h

theorem detectInText_valid {stg : ExtensionSettings}
    {patterns : List PIIPattern} {ctx : DetectionContext} {l : List PIIMatch}
    (h : detectInText stg patterns ctx = .ok l) :
    ∀ m ∈ l, isValidMatch m.text m.ptype = true := by
  refine foldlM_ok_prop ?_ patterns [] l h (by simp)
  intro acc pat l' hstep hacc
  by_cases hen : pat.enabled = true
  · simp only [hen, Bool.not_true, Bool.false_eq_true, if_false] at hstep
    cases hc : compileRegex pat.pattern.data with
    | none => rw [hc] at hstep; cases hstep
    | some r =>
      rw [hc] at hstep
      have hl' : l' = acc ++ _ := (Except.ok.inj hstep).symm
      subst hl'
      intro m hm
      rcases List.mem_append.mp hm with hm' | hm'
      · exact hacc m hm'
      · obtain ⟨oc, _, hoc⟩ := List.mem_filterMap.mp hm'
        by_cases hinc : shouldIncludeMatch stg
            (String.mk (sliceList ctx.textContent oc.1 oc.2)) pat ctx = true
        · rw [if_pos hinc] at hoc
          cases hoc
          exact shouldInclude_valid hinc
        · rw [if_neg hinc] at hoc
          cases hoc
  · simp only [hen] at hstep
    simp only [Bool.not_false, if_true, pure, Except.pure] at hstep
    cases hstep
    exact hacc

theorem collectMatches_valid {d : State} {nodes : List TextNode}
    {ms : List PIIMatch} (h : collectMatches d nodes = .ok ms) :
    ∀ m ∈ ms, isValidMatch m.text m.ptype = true := by
  refine foldlM_ok_prop ?_ nodes [] ms h (by simp)
  intro acc node l' hstep hacc
  split at hstep
  · simp only [pure, Except.pure] at hstep
    cases hstep
    exact hacc
  · rename_i e _
    split at hstep
    · simp only [pure, Except.pure] at hstep
      cases hstep
      exact hacc
    · cases hdet : detectInText d.settings d.patterns
          (buildDetectionContext e node.text) with
      | error e' =>
        rw [hdet] at hstep
        simp only [Bind.bind, Except.bind] at hstep
        cases hstep
      | ok nm =>
        rw [hdet] at hstep
        simp only [Bind.bind, Except.bind, pure, Except.pure] at hstep
        cases hstep
        intro m hm
        rcases List.mem_append.mp hm with hm' | hm'
        · exact hacc m hm'
        · exact detectInText_valid hdet m hm'

theorem detectInText_ok (stg : ExtensionSettings) {patterns : List PIIPattern}
    (ctx : DetectionContext)
    (hc : ∀ p ∈ patterns, p.enabled = true → (compileRegex p.pattern.data).isSome = true) :
    ∃ l, detectInText stg patterns ctx = .ok l := by
  refine foldlM_ok_total patterns ?_ []
  intro acc pat hmem
  by_cases hen : pat.enabled = true
  · have := hc pat hmem hen
    cases hcomp : compileRegex pat.pattern.data with
    | none => rw [hcomp] at this; simp at this
    | some r =>
      simp only [hen, Bool.not_true, Bool.false_eq_true, if_false, hcomp]
      exact ⟨_, rfl⟩
  · simp only [Bool.not_eq_true] at hen
    exact ⟨acc, by simp [hen, pure, Except.pure]⟩

theorem collectMatches_ok {d : State} (nodes : List TextNode)
    (hc : ∀ p ∈ d.patterns, p.enabled = true → (compileRegex p.pattern.data).isSome = true) :
    ∃ l, collectMatches d nodes = .ok l := by
  refine foldlM_ok_total nodes ?_ []
  intro acc node _
  cases hp : node.parent with
  | none => exact ⟨acc, by simp [hp, pure, Except.pure]⟩
  | some e =>
    by_cases hw : node.text.data.all isJsSpace = true
    · exact ⟨acc, by simp [hp, hw, pure, Except.pure]⟩
    · obtain ⟨nm, hnm⟩ :=
        detectInText_ok d.settings (buildDetectionContext e node.text) hc
      refine ⟨acc ++ nm, ?_⟩
      simp [hp, hw, hnm, Bind.bind, Except.bind, pure, Except.pure]

theorem collectMatches_all_space {d : State} {nodes : List TextNode}
    (hw : ∀ n ∈ nodes, n.text.data.all isJsSpace = true) :
    collectMatches d nodes = .ok [] := by
  suffices h : ∀ acc, List.foldlM
      (fun acc node =>
        match node.parent with
        | none => pure acc
        | some e =>
          if node.text.data.all isJsSpace then pure acc
          else do
            let nm ← detectInText d.settings d.patterns
              (buildDetectionContext e node.text)
            pure (acc ++ nm))
      acc nodes = .ok acc by
    exact h []
  induction nodes with
  | nil => intro acc; rfl
  | cons n ns ih =>
    intro acc
    rw [List.foldlM_cons]
    have hn := hw n (List.mem_cons_self _ _)
    have hrest := ih (fun n hn => hw n (List.mem_cons_of_mem _ hn))
    cases hp : n.parent with
    | none => simpa only [Bind.bind, Except.bind, pure, Except.pure] using hrest acc
    | some e =>
      simp only [hn, if_true]
      simpa only [Bind.bind, Except.bind, pure, Except.pure] using hrest acc

theorem isOverlapping_symm (a b : PIIMatch) :
    isOverlapping a b = isOverlapping b a := by
  simp [isOverlapping, Bool.or_comm]

theorem overlapsKept_rel {ms : List PIIMatch} {m ex : PIIMatch}
    (hk : overlapsKept m ex = true) (hm : m ∈ ms) (hex : ex ∈ ms) :
    OverRel ms ex m ∧ OverRel ms m ex := by
  simp only [overlapsKept, Bool.and_eq_true, decide_eq_true_eq] at hk
  obtain ⟨hel, hov⟩ := hk
  refine ⟨⟨hex, hm, hel, hov⟩, ⟨hm, hex, hel.symm, ?_⟩⟩
  rw [isOverlapping_symm]
  exact hov

theorem dedupStep_conn {ms acc : List PIIMatch} {m : PIIMatch}
    (hacc : ∀ a ∈ acc, a ∈ ms) (hm : m ∈ ms) :
    (∀ a ∈ acc, ∃ r ∈ dedupStep acc m, Linked ms a r) ∧
      (∃ r ∈ dedupStep acc m, Linked ms m r) ∧
      (∀ r ∈ dedupStep acc m, r ∈ ms) := by
  cases hidx : findOverlapIdx m acc with
  | none =>
    have hd : dedupStep acc m = acc ++ [m] := by
      simp [dedupStep, hidx]
    rw [hd]
    refine ⟨fun a ha => ⟨a, List.mem_append_left _ ha, .refl⟩,
      ⟨m, List.mem_append_right _ (List.mem_singleton.mpr rfl), .refl⟩,
      fun r hr => ?_⟩
    rcases List.mem_append.mp hr with h | h
    · exact hacc r h
    · rw [List.mem_singleton.mp h]; exact hm
  | some i =>
    obtain ⟨ex, hget, hkept⟩ := findOverlapIdx_some hidx
    have hexmem : ex ∈ acc := List.get?_mem hget
    have hlt : i < acc.length := by
      rcases List.get?_eq_some.mp hget with ⟨h, _⟩
      exact h
    obtain ⟨hrel_exm, hrel_mex⟩ := overlapsKept_rel hkept hm (hacc ex hexmem)
    have hget2 : acc[i]? = some ex := by
      rw [← List.get?_eq_getElem?]
      exact hget
    have hd : dedupStep acc m =
        if shouldReplaceMatch ex m = true then acc.set i m else acc := by
      simp [dedupStep, hidx, hget2]
    rw [hd]
    by_cases hrep : shouldReplaceMatch ex m = true
    · rw [if_pos hrep]
      have hmset : m ∈ acc.set i m := List.mem_set acc i hlt m
      refine ⟨fun a ha => ?_, ⟨m, hmset, .refl⟩, fun r hr => ?_⟩
      · rcases mem_set_or_eq_get ha hget with h | h
        · exact ⟨a, h, .refl⟩
        · exact ⟨m, hmset, Relation.ReflTransGen.single (h ▸ hrel_exm)⟩
      · rcases List.mem_or_eq_of_mem_set hr with h | h
        · exact hacc r h
        · rw [h]; exact hm
    · rw [if_neg hrep]
      exact ⟨fun a ha => ⟨a, ha, .refl⟩,
        ⟨ex, hexmem, Relation.ReflTransGen.single hrel_mex⟩, hacc⟩

theorem foldl_dedup_conn {ms : List PIIMatch} :
    ∀ (rest acc : List PIIMatch), (∀ a ∈ acc, a ∈ ms) → (∀ a ∈ rest, a ∈ ms) →
      (∀ a ∈ acc, ∃ r ∈ rest.foldl dedupStep acc, Linked ms a r) ∧
        (∀ m ∈ rest, ∃ r ∈ rest.foldl dedupStep acc, Linked ms m r) := by
  intro rest
  induction rest with
  | nil =>
    intro acc hacc _
    exact ⟨fun a ha => ⟨a, ha, .refl⟩, by simp⟩
  | cons m rest' ih =>
    intro acc hacc hrest
    have hm : m ∈ ms := hrest m (List.mem_cons_self _ _)
    obtain ⟨hstep1, hstep2, hstep3⟩ := dedupStep_conn hacc hm
    have hrest' : ∀ a ∈ rest', a ∈ ms :=
      fun a ha => hrest a (List.mem_cons_of_mem _ ha)
    obtain ⟨hih1, hih2⟩ := ih (dedupStep acc m) hstep3 hrest'
    rw [List.foldl_cons]
    constructor
    · intro a ha
      obtain ⟨r₁, hr₁, hl₁⟩ := hstep1 a ha
      obtain ⟨r₂, hr₂, hl₂⟩ := hih1 r₁ hr₁
      exact ⟨r₂, hr₂, hl₁.trans hl₂⟩
    · intro m' hm'
      rcases List.mem_cons.mp hm' with rfl | hmem
      · obtain ⟨r₁, hr₁, hl₁⟩ := hstep2
        obtain ⟨r₂, hr₂, hl₂⟩ := hih1 r₁ hr₁
        exact ⟨r₂, hr₂, hl₁.trans hl₂⟩
      · exact hih2 m' hmem

theorem removeDuplicateMatches_conn {ms : List PIIMatch} :
    ∀ m ∈ ms, ∃ r ∈ removeDuplicateMatches ms, Linked ms m r := by
  intro m hm
  exact (foldl_dedup_conn ms [] (by simp) (fun a ha => ha)).2 m hm

theorem jsLe_iff_of_same {a b : PIIMatch} (h : a.element = b.element) :
    jsLe a b = true ↔ a.startIndex ≤ b.startIndex := by
  simp only [jsLe, jsCompare, decide_eq_true_eq]
  rw [if_neg (by simp [h])]
  omega

theorem jsLe_false_of_same {a b : PIIMatch} (h : a.element = b.element)
    (hle : jsLe a b = false) : b.startIndex ≤ a.startIndex := by
  by_contra hc
  have : a.startIndex ≤ b.startIndex := by omega
  rw [(jsLe_iff_of_same h).mpr this] at hle
  cases hle

theorem mergeJS_sorted :
    ∀ {fuel : Nat} {xs ys : List PIIMatch}, xs.length + ys.length ≤ fuel →
      (∀ u, (u ∈ xs ∨ u ∈ ys) → ∀ v, (v ∈ xs ∨ v ∈ ys) → u.element = v.element) →
      xs.Pairwise (fun a b => a.startIndex ≤ b.startIndex) →
      ys.Pairwise (fun a b => a.startIndex ≤ b.startIndex) →
      (mergeJS jsLe fuel xs ys).Pairwise (fun a b => a.startIndex ≤ b.startIndex) := by
  intro fuel
  induction fuel with
  | zero =>
    intro xs ys hlen _ _ _
    have : xs = [] ∧ ys = [] := by
      constructor <;> (cases xs <;> cases ys <;> simp_all)
    obtain ⟨rfl, rfl⟩ := this
    simp [mergeJS]
  | succ n ih =>
    intro xs ys hlen helem hxs hys
    match xs, ys with
    | [], ys => simpa [mergeJS] using hys
    | x :: xs', [] => simpa [mergeJS] using hxs
    | x :: xs', y :: ys' =>
      obtain ⟨hxhead, hxs'⟩ := List.pairwise_cons.mp hxs
      obtain ⟨hyhead, hys'⟩ := List.pairwise_cons.mp hys
      by_cases hle : jsLe x y = true
      · have hxy : x.startIndex ≤ y.startIndex :=
          (jsLe_iff_of_same (helem x (Or.inl (by simp)) y (Or.inr (by simp)))).mp hle
        simp only [mergeJS, if_pos hle]
        rw [List.pairwise_cons]
        constructor
        · intro z hz
          rcases mem_mergeJS.mp hz with hzx | hzy
          · exact hxhead z hzx
          · rcases List.mem_cons.mp hzy with rfl | hzy'
            · exact hxy
            · exact le_trans hxy (hyhead z hzy')
        · refine ih (by simp at hlen ⊢; omega) ?_ hxs' hys
          intro u hu v hv
          refine helem u ?_ v ?_
          · rcases hu with h | h
            · exact Or.inl (List.mem_cons_of_mem _ h)
            · exact Or.inr h
          · rcases hv with h | h
            · exact Or.inl (List.mem_cons_of_mem _ h)
            · exact Or.inr h
      · have hle' : jsLe x y = false := by
          cases h : jsLe x y
          · rfl
          · exact absurd h hle
        have hyx : y.startIndex ≤ x.startIndex :=
          jsLe_false_of_same (helem x (Or.inl (by simp)) y (Or.inr (by simp))) hle'
        simp only [mergeJS, if_neg hle]
        rw [List.pairwise_cons]
        constructor
        · intro z hz
          rcases mem_mergeJS.mp hz with hzx | hzy
          · rcases List.mem_cons.mp hzx with rfl | hzx'
            · exact hyx
            · exact le_trans hyx (hxhead z hzx')
          · exact hyhead z hzy
        · refine ih (by simp at hlen ⊢; omega) ?_ hxs hys'
          intro u hu v hv
          refine helem u ?_ v ?_
          · rcases hu with h | h
            · exact Or.inl h
            · exact Or.inr (List.mem_cons_of_mem _ h)
          · rcases hv with h | h
            · exact Or.inl h
            · exact Or.inr (List.mem_cons_of_mem _ h)

theorem length_mergeJS {le : PIIMatch → PIIMatch → Bool} :
    ∀ {fuel : Nat} {xs ys : List PIIMatch},
      (mergeJS le fuel xs ys).length = xs.length + ys.length := by
  intro fuel
  induction fuel with
  | zero => intro xs ys; simp [mergeJS]
  | succ n ih =>
    intro xs ys
    match xs, ys with
    | [], ys => simp [mergeJS]
    | x :: xs', [] => simp [mergeJS]
    | x :: xs', y :: ys' =>
      by_cases hle : le x y = true
      · simp only [mergeJS, if_pos hle, List.length_cons, ih]
        omega
      · simp only [mergeJS, if_neg hle, List.length_cons, ih]
        omega

theorem length_msortJS {le : PIIMatch → PIIMatch → Bool} :
    ∀ {fuel : Nat} {l : List PIIMatch}, (msortJS le fuel l).length = l.length := by
  intro fuel
  induction fuel with
  | zero => intro l; simp [msortJS]
  | succ n ih =>
    intro l
    by_cases h1 : l.length ≤ 1
    · simp [msortJS, h1]
    · simp only [msortJS, if_neg h1, length_mergeJS, ih,
        List.length_take, List.length_drop]
      omega

theorem msortJS_sorted :
    ∀ {fuel : Nat} {l : List PIIMatch}, l.length ≤ fuel →
      (∀ u ∈ l, ∀ v ∈ l, u.element = v.element) →
      (msortJS jsLe fuel l).Pairwise (fun a b => a.startIndex ≤ b.startIndex) := by
  intro fuel
  induction fuel with
  | zero =>
    intro l hlen _
    have : l = [] := by cases l <;> simp_all
    subst this
    simp [msortJS]
  | succ n ih =>
    intro l hlen helem
    by_cases h1 : l.length ≤ 1
    · rw [msortJS, if_pos h1]
      match l, h1 with
      | [], _ => simp
      | [x], _ => simp
    · rw [msortJS, if_neg h1]
      have hlt : l.length / 2 < l.length := by omega
      have htake : (l.take (l.length / 2)).length ≤ n := by
        rw [List.length_take]
        omega
      have hdrop : (l.drop (l.length / 2)).length ≤ n := by
        rw [List.length_drop]
        omega
      have helemTake : ∀ u ∈ l.take (l.length / 2), ∀ v ∈ l.take (l.length / 2),
          u.element = v.element :=
        fun u hu v hv => helem u (List.take_subset _ _ hu) v (List.take_subset _ _ hv)
      have helemDrop : ∀ u ∈ l.drop (l.length / 2), ∀ v ∈ l.drop (l.length / 2),
          u.element = v.element :=
        fun u hu v hv => helem u (List.drop_subset _ _ hu) v (List.drop_subset _ _ hv)
      refine mergeJS_sorted ?_ ?_ (ih htake helemTake) (ih hdrop helemDrop)
      · rw [length_msortJS, length_msortJS, List.length_take, List.length_drop]
        omega
      · intro u hu v hv
        have hmem : ∀ w, (w ∈ msortJS jsLe n (l.take (l.length / 2)) ∨
            w ∈ msortJS jsLe n (l.drop (l.length / 2))) → w ∈ l := by
          intro w hw
          rcases hw with h | h
          · exact List.take_subset _ _ (mem_msortJS.mp h)
          · exact List.drop_subset _ _ (mem_msortJS.mp h)
        exact helem u (hmem u hu) v (hmem v hv)

theorem sortJS_sorted {l : List PIIMatch}
    (helem : ∀ u ∈ l, ∀ v ∈ l, u.element = v.element) :
    (sortJS jsLe l).Pairwise (fun a b => a.startIndex ≤ b.startIndex) :=
  msortJS_sorted le_rfl helem

theorem shouldReplaceMatch_iff {ex m : PIIMatch} :
    shouldReplaceMatch ex m = true ↔
      (ex.text.length < m.text.length ∨
        jsIndexOf priorityOrder m.ptype < jsIndexOf priorityOrder ex.ptype) := by
  unfold shouldReplaceMatch
  by_cases hl : m.text.length > ex.text.length
  · rw [if_pos hl]
    exact ⟨fun _ => Or.inl hl, fun _ => rfl⟩
  · rw [if_neg hl, decide_eq_true_eq]
    exact ⟨Or.inr, fun h => h.resolve_left (fun hlt => hl hlt)⟩

theorem dedup_pair {a b : PIIMatch} (hel : a.element = b.element)
    (hov : isOverlapping a b = true) :
    removeDuplicateMatches [a, b] =
      if a.text.length < b.text.length ∨
          jsIndexOf priorityOrder b.ptype < jsIndexOf priorityOrder a.ptype
      then [b] else [a] := by
  have h1 : dedupStep [] a = [a] := rfl
  have hk : overlapsKept b a = true := by
    simp [overlapsKept, hel, hov]
  have hidx : findOverlapIdx b [a] = some 0 := by
    simp [findOverlapIdx, hk]
  have h2 : dedupStep [a] b =
      if shouldReplaceMatch a b = true then [b] else [a] := by
    simp [dedupStep, hidx]
  unfold removeDuplicateMatches
  simp only [List.foldl_cons, List.foldl_nil, h1, h2]
  by_cases hc : (a.text.length < b.text.length ∨
      jsIndexOf priorityOrder b.ptype < jsIndexOf priorityOrder a.ptype)
  · rw [if_pos (shouldReplaceMatch_iff.mpr hc), if_pos hc]
  · rw [if_neg (fun h => hc (shouldReplaceMatch_iff.mp h)), if_neg hc]

theorem isMediumConfidenceMatch_iff {t : String} {pat : PIIPattern}
    {ctx : DetectionContext} :
    isMediumConfidenceMatch t pat ctx = true ↔
      ((ctx.formContext ≠ "" ∧ PIIPatterns.isLikelyPII t ctx.formContext = true) ∨
        ctx.elementType ∈ highConfidenceElements) := by
  unfold isMediumConfidenceMatch
  by_cases h1 : (decide (ctx.formContext ≠ "") &&
      PIIPatterns.isLikelyPII t ctx.formContext) = true
  · rw [if_pos h1]
    simp only [Bool.and_eq_true, decide_eq_true_eq] at h1
    simp [h1]
  · rw [if_neg h1]
    by_cases h2 : highConfidenceElements.contains ctx.elementType = true
    · rw [if_pos h2]
      have hmem : ctx.elementType ∈ highConfidenceElements := by simpa using h2
      simp [hmem]
    · rw [if_neg h2]
      have h2' : ¬ctx.elementType ∈ highConfidenceElements := by
        intro h
        exact h2 (by simpa using h)
      simp only [Bool.false_eq_true, false_iff]
      rintro (⟨hne, hlik⟩ | hmem)
      · exact h1 (by simp [hne, hlik])
      · exact h2' hmem

theorem medium_accept_iff {stg : ExtensionSettings} {t : String}
    {pat : PIIPattern} {ctx : DetectionContext} (hs : stg.sensitivity = .medium) :
    shouldIncludeMatch stg t pat ctx = true ↔
      (isValidMatch t pat.name = true ∧
        ((ctx.formContext ≠ "" ∧ PIIPatterns.isLikelyPII t ctx.formContext = true) ∨
          ctx.elementType ∈ highConfidenceElements)) := by
  unfold shouldIncludeMatch
  rw [hs]
  cases hv : isValidMatch t pat.name with
  | false => simp
  | true =>
    rw [if_neg (by simp), if_neg (by decide), if_neg (by decide)]
    rw [isMediumConfidenceMatch_iff]
    simp

theorem detectPII_ok_elim {d : State} {nodes : List TextNode}
    {l : List PIIMatch} (h : detectPII d nodes = .ok l) :
    ∃ ms, collectMatches d nodes = .ok ms ∧ l = postProcessMatches ms := by
  unfold detectPII at h
  cases hc : collectMatches d nodes with
  | error e => rw [hc] at h; simp [Except.map] at h
  | ok ms =>
    rw [hc] at h
    simp only [Except.map] at h
    exact ⟨ms, rfl, (Except.ok.inj h).symm⟩

end PIIDetector

open PIIDetector

set_option maxRecDepth 1000000

/-- C1 counterexample: two overlapping candidates of the same span and the
same text length, the kept one of the listed type `email` and the new one of
the unlisted type `postalCode`; overlap resolution retains the unlisted
candidate, so a type absent from the priority list does not lose an
equal-length tie — it wins it (`indexOf` returns `-1`, the smallest
priority index). -/
theorem claim_C1_counterexample :
    removeDuplicateMatches [mEmailTie, mPostalTie] = [mPostalTie] ∧
      mEmailTie.text.length = mPostalTie.text.length ∧
      mEmailTie.element = mPostalTie.element ∧
      isOverlapping mEmailTie mPostalTie = true ∧
      mEmailTie.ptype ∈ priorityOrder ∧
      mPostalTie.ptype ∉ priorityOrder := by
  refine ⟨rfl, rfl, rfl, rfl, by decide, by decide⟩

/-- C1 (amended): for two overlapping candidates of one span processed in
order, the later replaces the earlier iff its text is strictly longer or —
regardless of relative length — its type has a strictly smaller index in the
priority array `[creditCard, myNumber, email, phone, address, japaneseName]`
under JS `indexOf`, where an absent type gets index `-1` and therefore ranks
highest: an unlisted type wins every equal-length tie, and a shorter
candidate of smaller index replaces a longer kept one. -/
theorem claim_C1_overlap_resolution (a b : PIIMatch)
    (hel : a.element = b.element) (hov : isOverlapping a b = true) :
    removeDuplicateMatches [a, b] =
      if a.text.length < b.text.length ∨
          jsIndexOf priorityOrder b.ptype < jsIndexOf priorityOrder a.ptype
      then [b] else [a] :=
  dedup_pair hel hov

/-- C1 witness: the amended resolution rule evaluated on the concrete
equal-length email/postal-code pair. -/
theorem claim_C1_witness :
    removeDuplicateMatches [mEmailTie, mPostalTie] =
      if mEmailTie.text.length < mPostalTie.text.length ∨
          jsIndexOf priorityOrder mPostalTie.ptype <
            jsIndexOf priorityOrder mEmailTie.ptype
      then [mPostalTie] else [mEmailTie] :=
  claim_C1_overlap_resolution mEmailTie mPostalTie rfl rfl

/-- C6 counterexample: at Medium sensitivity, a structurally valid email
candidate in a context whose form-context string is empty, whose
nearby-sibling text contains the keyword `name`, and whose element kind is
`p` is rejected by the code, while the claimed policy (fall back to the
nearby text when the form context is absent) accepts it. -/
theorem claim_C6_counterexample :
    shouldIncludeMatch mediumDefaults "a@b.cd" PIIPatterns.EMAIL ctxMediumProbe
        = false ∧
      specMediumAccepts "a@b.cd" PIIPatterns.EMAIL.name ctxMediumProbe = true :=
  ⟨rfl, rfl⟩

/-- C6 (amended): at Medium sensitivity a structurally valid candidate is
accepted iff the keyword corroboration holds against the form-context
string and that string is non-empty (there is no fallback to the
nearby-sibling text at Medium), or the element kind is one of
input/textarea/span/div. -/
theorem claim_C6_medium_policy (stg : ExtensionSettings) (t : String)
    (pat : PIIPattern) (ctx : DetectionContext)
    (hs : stg.sensitivity = .medium) :
    shouldIncludeMatch stg t pat ctx = true ↔
      (isValidMatch t pat.name = true ∧
        ((ctx.formContext ≠ "" ∧ PIIPatterns.isLikelyPII t ctx.formContext = true) ∨
          ctx.elementType ∈ highConfidenceElements)) :=
  medium_accept_iff hs

/-- C6 witness: the Medium policy accepts a valid email candidate inside an
`input` element. -/
theorem claim_C6_witness :
    shouldIncludeMatch mediumDefaults "a@b.cd" PIIPatterns.EMAIL ctxInputProbe
      = true :=
  (claim_C6_medium_policy mediumDefaults "a@b.cd" PIIPatterns.EMAIL
    ctxInputProbe rfl).mpr (by refine ⟨rfl, Or.inr ?_⟩; decide)

/-- C8 counterexample: the phone false-positive filter keeps a candidate of
digit length 12 (the claim requires rejection above 11) and rejects the
candidate `0001234567` of digit length 10 that starts with only three zeros
(the claim requires keeping anything not starting with four zeros). -/
theorem claim_C8_counterexample :
    PIIPatterns.filterFalsePositives ["123456789012"] "phone"
        = ["123456789012"] ∧
      (cleanSeps "123456789012".data).length = 12 ∧
      PIIPatterns.filterFalsePositives ["0001234567"] "phone" = [] ∧
      (cleanSeps "0001234567".data).length = 10 ∧
      "0000".data.isPrefixOf (cleanSeps "0001234567".data) = false := by
  refine ⟨rfl, rfl, rfl, rfl, rfl⟩

/-- C8 (amended): the phone filter keeps a candidate iff its digit-only
form has length at least 10 — with no upper bound — and does not start with
three zeros. -/
theorem claim_C8_phone_filter (ms : List String) (m : String) :
    m ∈ PIIPatterns.filterFalsePositives ms "phone" ↔
      (m ∈ ms ∧ 10 ≤ (cleanSeps m.data).length ∧
        "000".data.isPrefixOf (cleanSeps m.data) = false) := by
  unfold PIIPatterns.filterFalsePositives
  rw [if_pos rfl, List.mem_filter]
  simp only [Bool.and_eq_true, decide_eq_true_eq, Bool.not_eq_true',
    and_assoc, ge_iff_le]

/-- C9 counterexample: the japaneseName false-positive filter keeps the
candidate `abc`, none of whose characters lies in the CJK/hiragana/katakana
ranges; the claimed script restriction is not applied at this stage. -/
theorem claim_C9_counterexample :
    PIIPatterns.filterFalsePositives ["abc"] "japaneseName" = ["abc"] ∧
      "abc".data.all isNameChar = false :=
  ⟨rfl, rfl⟩

/-- C9 (amended): the japaneseName filter keeps a candidate iff its length
is between 2 and 8; it imposes no script restriction (script checking
happens only in the detector's structural validator). -/
theorem claim_C9_name_filter (ms : List String) (m : String) :
    m ∈ PIIPatterns.filterFalsePositives ms "japaneseName" ↔
      (m ∈ ms ∧ 2 ≤ m.length ∧ m.length ≤ 8) := by
  unfold PIIPatterns.filterFalsePositives
  rw [if_neg (by decide), if_neg (by decide), if_pos rfl, List.mem_filter]
  simp only [Bool.and_eq_true, decide_eq_true_eq, and_assoc, ge_iff_le]

/-- C10: determinism and order-stability of `detect` given the held state:
in this shallow embedding the detector's held settings snapshot and pattern
list are an explicit `State` value and `detectPII` is a pure function of
that state and the node list, so two calls with the same state and the same
spans — no `updateSettings` in between — are definitionally the same
ordered result. -/
theorem claim_C10_deterministic (d : State) (nodes : List TextNode) :
    detectPII d nodes = detectPII d nodes :=
  rfl

/-- C5: every `creditCard` match that `detectPII` ever outputs — for any
held state, any node list and any sensitivity — passed `isValidCreditCard`,
so its separator-stripped content satisfies the Luhn checksum; in
particular a 16-digit string failing the checksum can never appear as a
`creditCard` match. -/
theorem claim_C5_luhn_invariant (d : State) (nodes : List TextNode)
    (l : List PIIMatch) (hdet : detectPII d nodes = .ok l) :
    ∀ m ∈ l, m.ptype = "creditCard" →
      luhnCheck (cleanSeps m.text.data) = true := by
  intro m hm htype
  obtain ⟨ms, hcol, hl⟩ := detectPII_ok_elim hdet
  have hmem : m ∈ ms := by
    subst hl
    exact mem_postProcessMatches hm
  have hval := collectMatches_valid hcol m hmem
  rw [htype] at hval
  unfold isValidMatch at hval
  rw [if_neg (by decide), if_neg (by decide), if_pos rfl] at hval
  unfold isValidCreditCard at hval
  dsimp only at hval
  split at hval
  · cases hval
  · split at hval
    · cases hval
    · exact hval

/-- C5 witness: the Luhn-valid card `4111 1111 1111 1111` is detected as a
`creditCard` match and its cleaned digits indeed pass the checksum. -/
theorem claim_C5_witness :
    luhnCheck (cleanSeps mCardOut.text.data) = true :=
  claim_C5_luhn_invariant (State.new highDefaults) [cardNode] [mCardOut]
    rfl mCardOut (List.mem_singleton.mpr rfl) rfl

/-- C2 (amended): overlap removal guarantees that every candidate match is
connected — through a chain of same-span interval overlaps within the
candidate set — to some match of the final output, so each overlap cluster
retains at least one match; it does not guarantee uniqueness: the final
output can itself contain two intersecting matches of one span (see the
counterexample). -/
theorem claim_C2_cluster_survivor (d : State) (nodes : List TextNode)
    (ms l : List PIIMatch) (hcol : collectMatches d nodes = .ok ms)
    (hdet : detectPII d nodes = .ok l) :
    ∀ m ∈ ms, ∃ r ∈ l, Linked ms m r := by
  intro m hm
  obtain ⟨ms', hcol', hl⟩ := detectPII_ok_elim hdet
  rw [hcol] at hcol'
  cases hcol'
  obtain ⟨r, hr, hlink⟩ := removeDuplicateMatches_conn m hm
  subst hl
  exact ⟨r, mem_sortJS.mpr hr, hlink⟩

/-- C3 (amended): `detect` never raises provided every enabled pattern of
the held pattern list compiles; an empty node list yields the empty match
list, and so does a list of whitespace-only nodes. (A malformed enabled
pattern, by contrast, makes `detect` throw — see the counterexample.) -/
theorem claim_C3_total_when_compilable (d : State) (nodes : List TextNode)
    (hc : ∀ p ∈ d.patterns, p.enabled = true →
      (compileRegex p.pattern.data).isSome = true) :
    (∃ l, detectPII d nodes = .ok l) ∧ detectPII d [] = .ok [] ∧
      ((∀ n ∈ nodes, n.text.data.all isJsSpace = true) →
        detectPII d nodes = .ok []) := by
  refine ⟨?_, rfl, ?_⟩
  · obtain ⟨ms, hms⟩ := collectMatches_ok nodes hc
    refine ⟨postProcessMatches ms, ?_⟩
    unfold detectPII
    rw [hms]
    rfl
  · intro hw
    unfold detectPII
    rw [collectMatches_all_space hw]
    rfl

/-- C7 (amended): when all output matches belong to one span, the output is
sorted ascending by `startOffset`; across distinct spans the comparator
returns `0`, so neither grouping by span nor any cross-span order is
established (see the counterexample). -/
theorem claim_C7_sorted_single_span (d : State) (nodes : List TextNode)
    (l : List PIIMatch) (hdet : detectPII d nodes = .ok l)
    (helem : ∀ a ∈ l, ∀ b ∈ l, a.element = b.element) :
    l.Pairwise (fun a b => a.startIndex ≤ b.startIndex) := by
  obtain ⟨ms, hcol, hl⟩ := detectPII_ok_elim hdet
  subst hl
  unfold postProcessMatches at helem ⊢
  apply sortJS_sorted
  intro u hu v hv
  exact helem u (mem_sortJS.mpr hu) v (mem_sortJS.mpr hv)

/-- C2 counterexample: on the span `都 123-4567 999-8888 市5号` the final
output of `detect` holds two matches of the same span whose `[start, end)`
intervals intersect — the long address match `[0, 23)` and the postal-code
match `[11, 19)` — because overlap removal only compares a new candidate
against the first overlapping kept match, and a longer replacement can
overlap other kept matches. -/
theorem claim_C2_counterexample :
    detectPII (State.new highDefaults) [jpMixedNode] =
        Except.ok [mAddrKept, mPostalKept] ∧
      mAddrKept.element = mPostalKept.element ∧
      isOverlapping mAddrKept mPostalKept = true :=
  ⟨rfl, rfl, rfl⟩

/-- C2 witness: the single email candidate of the end-to-end example is
linked to a surviving output match (itself). -/
theorem claim_C2_witness :
    ∃ r ∈ [mContactMatch], Linked [mContactMatch] mContactMatch r :=
  claim_C2_cluster_survivor (State.new highDefaults) [contactNode]
    [mContactMatch] [mContactMatch] rfl rfl mContactMatch
    (List.mem_singleton.mpr rfl)

/-- C3 counterexample: a held settings snapshot whose caller-supplied
pattern list contains the enabled malformed source `(` makes `detect` throw
(the compilation error propagates out of the per-pattern loop); the
offending pattern is not treated as disabled. -/
theorem claim_C3_counterexample :
    detectPII (State.new badPatternSettings) [helloNode] =
      Except.error "(" :=
  rfl

/-- C3 witness: with the default registry patterns every enabled pattern
compiles, so `detect` returns a value on the end-to-end example node, the
empty node list yields the empty match list, and a whitespace-only node
list yields the empty match list. -/
theorem claim_C3_witness :
    (∃ l, detectPII (State.new highDefaults) [blankNode] = .ok l) ∧
      detectPII (State.new highDefaults) [] = .ok [] ∧
      ((∀ n ∈ [blankNode], n.text.data.all isJsSpace = true) →
        detectPII (State.new highDefaults) [blankNode] = .ok []) :=
  claim_C3_total_when_compilable (State.new highDefaults) [blankNode]
    (by decide)

/-- C4 counterexample: on the span `Contact: test@example.com` the single
match `detect` returns does not have exclusive end offset 26: the match is
`test@example.com` at `[9, 25)` (the span itself is only 25 characters
long). -/
theorem claim_C4_counterexample :
    ((detectPII (State.new highDefaults) [contactNode]).toOption.getD
        []).map (fun m => (m.ptype, m.text, m.startIndex, m.endIndex)) ≠
      [("email", "test@example.com", 9, 26)] := by
  decide

/-- C4 (amended): the span `Contact: test@example.com` under High
sensitivity with the default patterns yields exactly one match, of type
`email`, with text `test@example.com`, start offset 9 and exclusive end
offset 25. -/
theorem claim_C4_contact_example :
    detectPII (State.new highDefaults) [contactNode] =
      Except.ok [mContactMatch] :=
  rfl

/-- C7 counterexample: three nodes under elements 1, 2 and 1 produce the
output sequence `[element 1 at 7, element 2 at 0, element 1 at 0]`: the two
matches of element 1 are neither contiguous (grouping fails) nor in
ascending `startOffset` order, because the comparator returns `0` for
matches of different spans. -/
theorem claim_C7_counterexample :
    detectPII (State.new highDefaults) threeNodes =
        Except.ok [mA1Out, mBOut, mA2Out] ∧
      mA1Out.element = mA2Out.element ∧
      mA1Out.element ≠ mBOut.element ∧
      mA2Out.startIndex < mA1Out.startIndex :=
  ⟨rfl, rfl, by decide, by decide⟩

/-- C7 witness: a single-span output (the end-to-end example) is sorted
ascending by start offset. -/
theorem claim_C7_witness :
    ([mContactMatch] : List PIIMatch).Pairwise
      (fun a b => a.startIndex ≤ b.startIndex) :=
  claim_C7_sorted_single_span (State.new highDefaults) [contactNode]
    [mContactMatch] rfl
    (by
      intro a ha b hb
      rw [List.mem_singleton.mp ha, List.mem_singleton.mp hb])
